import Mathlib

/-!
Shallow embedding of `frequency_response.py` (AutoEq): the `FrequencyResponse`
class with its channel buffers, the canonical log-frequency grid generator,
CSV round-trip, the reset-on-mutation operations, the sigmoid crossover, the
gain-curve derivation (`equalize`), the parametric-EQ initializer and the
optimization-loop bookkeeping.

Numbers are modelled by an ordered field: `ℚ` where the code is plain
arithmetic (so properties evaluate by `decide`), `ℝ` where the code uses
transcendental functions (`log10`, `expit`).  External library collaborators
(scipy splines, Savitzky–Golay smoothing) are taken as function parameters:
the repository code under verification never inspects them beyond calling.
-/

set_option maxRecDepth 8000

set_option allowUnsafeReducibility true

attribute [local semireducible] Rat.add Rat.sub Rat.mul Rat.div Rat.neg Rat.inv

/-- Error outcomes of the Python methods: `ValueError` raised by `equalize`
when no error channel exists, `ValueError` raised by `optimize_parametric_eq`
when equalization is missing, `IndexError` from an out-of-bounds array access,
and the `ValueError` raised by `smoothen` for inverted transition bounds. -/
inductive PyErr where
  | missingErrorData
  | missingEqualization
  | indexError
  | invalidBounds
  deriving DecidableEq

/-- The channel buffers of a `FrequencyResponse` instance, all aligned to
`frequency`.  An empty list models an empty numpy array (absent channel). -/
structure FR (α : Type) where
  frequency : List α := []
  raw : List α := []
  error : List α := []
  smoothed : List α := []
  error_smoothed : List α := []
  equalization : List α := []
  parametric_eq : List α := []
  equalized_raw : List α := []
  equalized_smoothed : List α := []
  target : List α := []
  deriving DecidableEq

/-- Python `round` (round half to even) on an exact rational, computed from
the numerator and denominator with integer floor division so that the kernel
can evaluate it: `Int.fdiv q.num q.den` is `⌊q⌋`, and `rem2` compared with the
denominator decides whether the fractional part is below, above or exactly
one half. -/
def pyRound (q : ℚ) : ℤ :=
  let n : ℤ := Int.fdiv q.num q.den
  let rem2 : ℤ := 2 * (q.num - n * q.den)
  if rem2 < (q.den : ℤ) then n
  else if (q.den : ℤ) < rem2 then n + 1
  else if n % 2 = 0 then n else n + 1

/-- Descending branch of `generate_frequencies`: `while f > f_min:
append(int(round(f))); f = f / f_step`, with explicit fuel (the Python loop
terminates because `f` decreases geometrically). -/
def freqsDown (f_min f_step : ℚ) : ℕ → ℚ → List ℤ
  | 0, _ => []
  | fuel + 1, f =>
    if f_min < f then pyRound f :: freqsDown f_min f_step fuel (f / f_step)
    else []

/-- Ascending branch of `generate_frequencies`: `while f < f_max:
append(int(round(f))); f = f * f_step`. -/
def freqsUp (f_max f_step : ℚ) : ℕ → ℚ → List ℤ
  | 0, _ => []
  | fuel + 1, f =>
    if f < f_max then pyRound f :: freqsUp f_max f_step fuel (f * f_step)
    else []

/-- Insert an integer into an ascending duplicate-free list, keeping it
ascending and duplicate-free. -/
def insertSorted (x : ℤ) : List ℤ → List ℤ
  | [] => [x]
  | y :: t =>
    if x < y then x :: y :: t
    else if x = y then y :: t
    else y :: insertSorted x t

/-- Python `sorted(set(l))`: the ascending duplicate-free enumeration of the
elements of `l`. -/
def sortedSet (l : List ℤ) : List ℤ :=
  l.foldl (fun acc x => insertSorted x acc) []

/-- `FrequencyResponse.generate_frequencies`: geometric descent from
`min(20000, f_max)` down to `f_min` and ascent up to `f_max`, each value
rounded to the nearest integer, then `sorted(set(...))`. -/
def generate_frequencies (f_min f_max f_step : ℚ) : List ℤ :=
  sortedSet (freqsDown f_min f_step 100000 (min 20000 f_max) ++
             freqsUp f_max f_step 100000 (min 20000 f_max))

/-- `FrequencyResponse.reset`: each flagged channel is replaced by an empty
array (`_init_data(None)`); `frequency` is never reset. -/
def reset {α : Type} (fr : FR α)
    (raw smoothed error error_smoothed equalization parametric_eq
     equalized_raw equalized_smoothed target : Bool) : FR α where
  frequency := fr.frequency
  raw := if raw then [] else fr.raw
  smoothed := if smoothed then [] else fr.smoothed
  error := if error then [] else fr.error
  error_smoothed := if error_smoothed then [] else fr.error_smoothed
  equalization := if equalization then [] else fr.equalization
  parametric_eq := if parametric_eq then [] else fr.parametric_eq
  equalized_raw := if equalized_raw then [] else fr.equalized_raw
  equalized_smoothed := if equalized_smoothed then [] else fr.equalized_smoothed
  target := if target then [] else fr.target

/-- `FrequencyResponse.interpolate`: resample `raw` onto `newFreq` through the
scipy interpolating spline (an external collaborator, passed as the function
`spline` from the old grid and old raw data to an evaluator), then
`reset(raw=False)`.  The source's removal of `None` entries is vacuous here
because channels carry total values. -/
def interpolate {α : Type} (spline : List α → List α → α → α)
    (newFreq : List α) (fr : FR α) : FR α :=
  let fr1 : FR α :=
    { fr with frequency := newFreq, raw := newFreq.map (spline fr.frequency fr.raw) }
  reset fr1 false true true true true true true true true

/-- `FrequencyResponse.calibrate`: `raw -= calibration.raw`, then
`reset(raw=False)`. -/
def calibrate {α : Type} [LinearOrderedField α] (fr calibration : FR α) : FR α :=
  let fr1 : FR α :=
    { fr with raw := List.zipWith (fun a b => a - b) fr.raw calibration.raw }
  reset fr1 false true true true true true true true true

/-- `FrequencyResponse.center`: subtract the spline-interpolated value of raw
at 1000 Hz from `raw` (and from `smoothed` when present; mapping over an empty
list is the same as skipping it), then
`reset(raw=False, smoothed=False, target=False)`. -/
def center {α : Type} [LinearOrderedField α] (spline : List α → List α → α → α)
    (fr : FR α) : FR α :=
  let diff := spline fr.frequency fr.raw 1000
  let fr1 : FR α :=
    { fr with raw := fr.raw.map (fun x => x - diff),
              smoothed := fr.smoothed.map (fun x => x - diff) }
  reset fr1 false false true true true true true true false

/-- A CSV file as produced by `write_to_csv`: one optional column per channel
(a column is present iff the channel had data). -/
structure Csv where
  frequency : Option (List ℚ) := none
  raw : Option (List ℚ) := none
  error : Option (List ℚ) := none
  smoothed : Option (List ℚ) := none
  error_smoothed : Option (List ℚ) := none
  equalization : Option (List ℚ) := none
  parametric_eq : Option (List ℚ) := none
  equalized_raw : Option (List ℚ) := none
  equalized_smoothed : Option (List ℚ) := none
  target : Option (List ℚ) := none
  deriving DecidableEq

/-- The `float_format='%.2f'` applied by `DataFrame.to_csv`: two-decimal
rounding (C printf rounds half to even, as `pyRound` does). -/
def round2 (q : ℚ) : ℚ := (pyRound (100 * q) : ℚ) / 100

/-- A channel as a CSV column: present iff nonempty, values formatted to two
decimals. -/
def colOf (l : List ℚ) : Option (List ℚ) :=
  if l = [] then none else some (l.map round2)

/-- `FrequencyResponse.write_to_csv`: every nonempty channel becomes a column
(`if len(self.x): df['x'] = ...`), written with `float_format='%.2f'`. -/
def write_to_csv (fr : FR ℚ) : Csv where
  frequency := colOf fr.frequency
  raw := colOf fr.raw
  error := colOf fr.error
  smoothed := colOf fr.smoothed
  error_smoothed := colOf fr.error_smoothed
  equalization := colOf fr.equalization
  parametric_eq := colOf fr.parametric_eq
  equalized_raw := colOf fr.equalized_raw
  equalized_smoothed := colOf fr.equalized_smoothed
  target := colOf fr.target

/-- Insert index `i` into a list of indices kept ascending by the frequency
values they point at (the comparison `np.argsort` performs). -/
def insIdx (freq : List ℚ) (i : ℕ) : List ℕ → List ℕ
  | [] => [i]
  | j :: t => if freq.getD i 0 < freq.getD j 0 then i :: j :: t else j :: insIdx freq i t

/-- `self.frequency.argsort()`: the permutation of `range n` that sorts the
frequency values ascending (insertion sort). -/
def argsortQ (freq : List ℚ) : List ℕ :=
  (List.range freq.length).foldr (insIdx freq) []

/-- Apply an index permutation to a channel (`data[sorted_inds]`). -/
def applyInds (inds : List ℕ) (l : List ℚ) : List ℚ :=
  inds.map (fun i => l.getD i 0)

/-- `FrequencyResponse._sort`: reorder `frequency` and every nonempty channel
by the argsort of `frequency`. -/
def sortChannels (fr : FR ℚ) : FR ℚ :=
  let inds := argsortQ fr.frequency
  { frequency := applyInds inds fr.frequency
    raw := if fr.raw = [] then fr.raw else applyInds inds fr.raw
    error := if fr.error = [] then fr.error else applyInds inds fr.error
    smoothed := if fr.smoothed = [] then fr.smoothed else applyInds inds fr.smoothed
    error_smoothed := if fr.error_smoothed = [] then fr.error_smoothed else
      applyInds inds fr.error_smoothed
    equalization := if fr.equalization = [] then fr.equalization else
      applyInds inds fr.equalization
    parametric_eq := if fr.parametric_eq = [] then fr.parametric_eq else
      applyInds inds fr.parametric_eq
    equalized_raw := if fr.equalized_raw = [] then fr.equalized_raw else
      applyInds inds fr.equalized_raw
    equalized_smoothed := if fr.equalized_smoothed = [] then fr.equalized_smoothed else
      applyInds inds fr.equalized_smoothed
    target := if fr.target = [] then fr.target else applyInds inds fr.target }

/-- `FrequencyResponse.read_from_csv` followed by `__init__`: take every
column the reader looks for — `error_smoothed` is not among them — default the
frequency grid when absent, and `_sort` by frequency. -/
def read_from_csv (c : Csv) : FR ℚ :=
  let f := c.frequency.getD []
  sortChannels
    { frequency := if f = [] then (generate_frequencies 20 20000 (101/100)).map
        (fun z => (z : ℚ)) else f
      raw := c.raw.getD []
      error := c.error.getD []
      smoothed := c.smoothed.getD []
      error_smoothed := []
      equalization := c.equalization.getD []
      parametric_eq := c.parametric_eq.getD []
      equalized_raw := c.equalized_raw.getD []
      equalized_smoothed := c.equalized_smoothed.getD []
      target := c.target.getD [] }

/-- Bookkeeping state of the optimization loop of
`_run_optimize_parametric_eq`: the tracked `min_loss`, the bad-step counter,
and the step losses at which the model variables `(fc, Q, gain)` were saved
(one entry per executed save, in order). -/
structure OptState where
  min_loss : Option ℚ := none
  bad_steps : ℕ := 0
  savedLosses : List ℚ := []
  deriving DecidableEq

/-- `min_loss is None or step_loss < min_loss`. -/
def improves (m : Option ℚ) (step_loss : ℚ) : Bool :=
  match m with
  | none => true
  | some m => decide (step_loss < m)

/-- `min_loss is None or min_loss - step_loss > threshold`. -/
def improvesBy (threshold : ℚ) (m : Option ℚ) (step_loss : ℚ) : Bool :=
  match m with
  | none => true
  | some m => decide (threshold < m - step_loss)

/-- One iteration of the optimization loop body, given the loss evaluated at
this step; returns the next state and whether the loop breaks. -/
def optStep (target_loss threshold : ℚ) (momentum : ℕ) (s : OptState)
    (step_loss : ℚ) : OptState × Bool :=
  let saved := if improves s.min_loss step_loss
    then s.savedLosses ++ [step_loss] else s.savedLosses
  if improvesBy threshold s.min_loss step_loss then
    ({ min_loss := some step_loss, bad_steps := 0, savedLosses := saved },
     decide (step_loss < target_loss))
  else
    let bad := s.bad_steps + 1
    ({ s with savedLosses := saved, bad_steps := bad }, decide (momentum < bad))

/-- The optimization loop over the sequence of step losses produced by the
Adam steps (the losses themselves come from the TensorFlow session, which the
embedding takes as given input). -/
def optLoop (target_loss threshold : ℚ) (momentum : ℕ) :
    OptState → List ℚ → OptState
  | s, [] => s
  | s, l :: ls =>
    let s1 := optStep target_loss threshold momentum s l
    if s1.2 then s1.1 else optLoop target_loss threshold momentum s1.1 ls

/-- The losses of the successively saved `(fc, Q, gain)` snapshots when the
loop of `_run_optimize_parametric_eq` runs with its hard-coded
`threshold = 0.01` and `momentum = 300` over the given step losses. -/
def savedLossHistory (target_loss : ℚ) (losses : List ℚ) : List ℚ :=
  (optLoop target_loss (1/100) 300 {} losses).savedLosses

/-- `np.log10`. -/
noncomputable def log10 (x : ℝ) : ℝ := Real.log x / Real.log 10

/-- `scipy.special.expit`, the logistic function. -/
noncomputable def expit (x : ℝ) : ℝ := 1 / (1 + Real.exp (-x))

/-- `f_center = np.sqrt(f_upper / f_lower) * f_lower` in `_sigmoid`. -/
noncomputable def sigmoid_f_center (f_lower f_upper : ℝ) : ℝ :=
  Real.sqrt (f_upper / f_lower) * f_lower

/-- `half_range = np.log10(f_upper) - np.log10(f_center)` in `_sigmoid`. -/
noncomputable def sigmoid_half_range (f_lower f_upper : ℝ) : ℝ :=
  log10 f_upper - log10 (sigmoid_f_center f_lower f_upper)

/-- `FrequencyResponse._sigmoid` at one frequency `f`:
`expit((log10(f) - log10(f_center)) / (half_range / 4)) * -(a_normal -
a_treble) + a_normal`; the source maps this over `self.frequency`. -/
noncomputable def _sigmoid (f_lower f_upper a_normal a_treble : ℝ) (f : ℝ) : ℝ :=
  expit ((log10 f - log10 (sigmoid_f_center f_lower f_upper)) /
      (sigmoid_half_range f_lower f_upper / 4)) * -(a_normal - a_treble) + a_normal

/-- Python `round` (half to even) on a real argument. -/
noncomputable def pyRoundR (x : ℝ) : ℤ :=
  if x - ⌊x⌋ < 1/2 then ⌊x⌋
  else if 1/2 < x - ⌊x⌋ then ⌊x⌋ + 1
  else if Even ⌊x⌋ then ⌊x⌋ else ⌊x⌋ + 1

/-- The arithmetic mean of the consecutive ratios `frequency[i] /
frequency[i-1]` used by `_window_size`. -/
noncomputable def avgStepSize (freq : List ℝ) : ℝ :=
  let steps := (freq.zip freq.tail).map (fun p => p.2 / p.1)
  steps.sum / steps.length

/-- `FrequencyResponse._window_size`: `round(log(2 ** octaves) /
log(step_size))` forced odd by adding one when even. -/
noncomputable def _window_size (freq : List ℝ) (octaves : ℝ) : ℤ :=
  let w := pyRoundR (Real.log ((2:ℝ) ^ octaves) / Real.log (avgStepSize freq))
  if w % 2 = 0 then w + 1 else w

/-- The clipping loop of `equalize` (`for i in range(len(error))`): produces
the clipped gains and the kink indices where `clipped` changed relative to the
previous sample (`previous_clipped` starts `False`); index-aligned traversal
of `error`, `max_gain` and `gain_k`. -/
noncomputable def clipLoop :
    List ℝ → List ℝ → List ℝ → ℕ → Bool → List ℝ × List ℕ
  | e :: es, m :: ms, k :: ks, i, prev =>
    let gain := -e * k
    let clipped : Bool := decide (m < gain)
    let rest := clipLoop es ms ks (i + 1) clipped
    ((if clipped then m else gain) :: rest.1,
     if prev = clipped then rest.2 else i :: rest.2)
  | _, _, _, _, _ => ([], [])

/-- `FrequencyResponse.equalize`.  The quadratic interpolating spline fitted
over `log10(f)` of the surviving points (scipy
`InterpolatedUnivariateSpline(..., k=2)`, an external collaborator) is the
parameter `spline2`, receiving the survivors' log-frequencies, their values,
and the evaluation point `log10(f)`.  The `None`-values branch of the source
is vacuous here because channel values are total. -/
noncomputable def equalize (spline2 : List ℝ → List ℝ → ℝ → ℝ)
    (max_gain : ℝ) (smoothen : Bool)
    (treble_f_lower treble_f_upper treble_max_gain treble_gain_k : ℝ)
    (fr : FR ℝ) : Except PyErr (FR ℝ) :=
  let errCh : Option (List ℝ) :=
    if fr.error_smoothed ≠ [] then some fr.error_smoothed
    else if fr.error ≠ [] then some fr.error
    else none
  match errCh with
  | none => .error .missingErrorData
  | some error =>
    let mg := fr.frequency.map
      (_sigmoid treble_f_lower treble_f_upper max_gain treble_max_gain)
    let gk := fr.frequency.map
      (_sigmoid treble_f_lower treble_f_upper 1 treble_gain_k)
    let res := clipLoop error mg gk 0 false
    let kinks := if res.2.head? = some 0 then res.2.tail else res.2
    let eq1 :=
      if smoothen then
        let n := res.1.length
        let nf := fr.frequency.length
        let hw : ℕ := ((_window_size fr.frequency (1/12) - 1) / 2).toNat
        let doomed := (List.range n).filter (fun d =>
          (kinks.any (fun i =>
            decide (i - min i hw ≤ d) && decide (d < i + 1 + min (n - i - 1) hw)))
          && decide (d ≠ nf - 1) && decide (d ≠ nf - 2))
        let f_surv := (fr.frequency.enum.filter
          (fun p => decide (p.1 ∉ doomed))).map (fun p => p.2)
        let e_surv := (res.1.enum.filter
          (fun p => decide (p.1 ∉ doomed))).map (fun p => p.2)
        fr.frequency.map (fun fq => spline2 (f_surv.map log10) e_surv (log10 fq))
      else res.1
    .ok { fr with
          equalization := eq1
          equalized_raw := List.zipWith (fun a b => a + b) fr.raw eq1
          equalized_smoothed :=
            if fr.smoothed ≠ [] then
              List.zipWith (fun a b => a + b) fr.smoothed eq1
            else fr.equalized_smoothed }

/-- The interpolation line built inside `merge_filters` for the candidate
pair at positions `j`, `j+1`: scipy's degree-1 interpolating spline through
`(log10 f_0, g_0)` and `(log10 f_1, g_1)` is the affine line through those two
points.  Following the source, `g_1` is read from `peak_g[pair_ind]` — the
same entry as `g_0` (line 283 of `frequency_response.py`) — not from
`peak_g[pair_ind + 1]`. -/
noncomputable def merge_pair_line (peak_fc peak_g : List ℝ) (j : ℕ) (x : ℝ) : ℝ :=
  let f_0 := peak_fc.getD j 0
  let g_0 := peak_g.getD j 0
  let f_1 := peak_fc.getD (j + 1) 0
  let g_1 := peak_g.getD j 0
  g_0 + (g_1 - g_0) * (x - log10 f_0) / (log10 f_1 - log10 f_0)

/-- Modelled from the spec: the same interpolation line but with the second
gain read from the second peak, `g_1 = peak_g[pair_ind + 1]`, i.e. the
"linear-in-log interpolation between the two peaks' gains" the specification
describes. -/
noncomputable def merge_pair_line_spec (peak_fc peak_g : List ℝ) (j : ℕ) (x : ℝ) : ℝ :=
  let f_0 := peak_fc.getD j 0
  let g_0 := peak_g.getD j 0
  let f_1 := peak_fc.getD (j + 1) 0
  let g_1 := peak_g.getD (j + 1) 0
  g_0 + (g_1 - g_0) * (x - log10 f_0) / (log10 f_1 - log10 f_0)

/-- `scipy.signal.find_peaks` on a 1-D array: interior samples strictly
greater than both neighbours (plateau handling is irrelevant for the inputs
considered here). -/
def findPeaks (l : List ℚ) : List ℕ :=
  (List.range l.length).filter (fun i =>
    decide (0 < i) && decide (i + 1 < l.length) &&
    decide (l.getD (i - 1) 0 < l.getD i 0) && decide (l.getD (i + 1) 0 < l.getD i 0))

/-- `np.clip(x, a_min=0.0, a_max=None)`. -/
def clipPos (l : List ℚ) : List ℚ := l.map (fun x => max x 0)

/-- Insertion keeping a `ℕ` list ascending (duplicates kept), for
`peak_inds.sort()`. -/
def insNat (x : ℕ) : List ℕ → List ℕ
  | [] => [x]
  | y :: t => if x ≤ y then x :: y :: t else y :: insNat x t

/-- `np.ndarray.sort` on the concatenated index array. -/
def sortNat (l : List ℕ) : List ℕ := l.foldr insNat []

/-- Lines 231–236 of `_run_optimize_parametric_eq`: peaks of the positive
clip of the smoothed target and of the positive clip of its negation, sorted,
keeping only indices where `|smoothed| > 0.1`. -/
def peakCandidates (s : List ℚ) : List ℕ :=
  (sortNat (findPeaks (clipPos s) ++ findPeaks (clipPos (s.map (fun x => -x))))).filter
    (fun i => decide (1/10 < |s.getD i 0|))

/-- The deterministic initialization part of `_run_optimize_parametric_eq`
(lines 229–306): heavy smoothing of the target (`smoothen(window_size=1/7,
iterations=1000)`, whose numeric output — scipy Savitzky–Golay plus sigmoid
mixing — is the parameter `smoothNumeric`), peak detection, the `peak_fc[0]`
access (an `IndexError` when no candidate survived), sub-bass seeding, gain
interpolation (`interp` standing for the scipy degree-1 spline over
`log10(frequency)`), and `remove_small_filters(0.1)`.  The subsequent
count-reduction merge loop and the TensorFlow optimization are modelled
separately (`merge_pair_line`, `optLoop`). -/
def _run_optimize_parametric_eq_init
    (smoothNumeric : List ℚ → List ℚ → List ℚ)
    (interp : List ℚ → List ℚ → ℚ → ℚ)
    (frequency target : List ℚ) : Except PyErr (List ℚ × List ℚ) :=
  let s := smoothNumeric frequency target
  let peak_inds := peakCandidates s
  let peak_fc0 := peak_inds.map (fun i => frequency.getD i 0)
  match peak_fc0 with
  | [] => .error .indexError
  | f0 :: _ =>
    let peak_fc := if 80 < f0 then 20 :: 60 :: peak_fc0
      else if 40 < f0 then 20 :: peak_fc0
      else peak_fc0
    let peak_g := peak_fc.map (interp frequency s)
    let keep := (List.zip peak_fc peak_g).filter (fun p => decide (1/10 < |p.2|))
    .ok (keep.map (fun p => p.1), keep.map (fun p => p.2))

/-- `FrequencyResponse.optimize_parametric_eq`: raises
`ValueError('Equalization has not been done yet.')` when the equalization
channel is empty, otherwise runs `_run_optimize_parametric_eq` on
`(frequency, equalization)`. -/
def optimize_parametric_eq (smoothNumeric : List ℚ → List ℚ → List ℚ)
    (interp : List ℚ → List ℚ → ℚ → ℚ) (fr : FR ℚ) :
    Except PyErr (List ℚ × List ℚ) :=
  if fr.equalization = [] then .error .missingEqualization
  else _run_optimize_parametric_eq_init smoothNumeric interp fr.frequency fr.equalization

/-- `FrequencyResponse._smoothen_data`: `iterations` passes of the normal
Savitzky–Golay filter, `treble_iterations` passes of the treble one (scipy
`savgol_filter` with polynomial order 2 is the external parameter `savgol`,
taking the window size in indices), mixed with the sigmoid weight
`k_treble`.  The `None`-values guard of the source is vacuous here. -/
noncomputable def _smoothen_data (savgol : ℤ → List ℝ → List ℝ)
    (window_size : ℝ) (iterations : ℕ)
    (treble_window_size : ℝ) (treble_iterations : ℕ)
    (treble_f_lower treble_f_upper : ℝ) (freq data : List ℝ) : List ℝ :=
  let y_normal := (savgol (_window_size freq window_size))^[iterations] data
  let y_treble := (savgol (_window_size freq treble_window_size))^[treble_iterations] data
  let k_treble := freq.map (_sigmoid treble_f_lower treble_f_upper 0 1)
  let k_normal := k_treble.map (fun k => k * -1 + 1)
  List.zipWith (fun a b => a + b)
    (List.zipWith (fun a b => a * b) y_normal k_normal)
    (List.zipWith (fun a b => a * b) y_treble k_treble)

/-- `FrequencyResponse.smoothen`: validates the transition band
(`ValueError` when `treble_f_upper <= treble_f_lower`), defaults the treble
parameters to the normal ones, smooths `raw` (and `error` when present) and
resets the equalization results. -/
noncomputable def smoothen (savgol : ℤ → List ℝ → List ℝ)
    (window_size : ℝ) (iterations : ℕ)
    (treble_window_size : Option ℝ) (treble_iterations : Option ℕ)
    (treble_f_lower treble_f_upper : ℝ) (fr : FR ℝ) : Except PyErr (FR ℝ) :=
  if treble_f_upper ≤ treble_f_lower then .error .invalidBounds
  else
    let tws := treble_window_size.getD window_size
    let tit := treble_iterations.getD iterations
    let smoothed := _smoothen_data savgol window_size iterations tws tit
      treble_f_lower treble_f_upper fr.frequency fr.raw
    let error_smoothed :=
      if fr.error ≠ [] then
        _smoothen_data savgol window_size iterations tws tit
          treble_f_lower treble_f_upper fr.frequency fr.error
      else fr.error_smoothed
    .ok (reset { fr with smoothed := smoothed, error_smoothed := error_smoothed }
      false false false false true true true true false)

/-- A four-point buffer over `ℝ` whose error channel forces the clipping
pattern clipped, unclipped, clipped, unclipped (grid chosen with power-of-ten
frequencies so that `log10` takes the values 0, 1, 2, 3). -/
def frClip : FR ℝ where
  frequency := [1, 10, 100, 1000]
  raw := [0, 0, 0, 0]
  error := [-10, 0, -10, 0]

/-- A one-point buffer over `ℝ` with an error channel. -/
def frOne : FR ℝ where
  frequency := [1000]
  raw := [0]
  error := [0]

/-- A two-point buffer whose `error_smoothed` channel is nonempty. -/
def frCsv : FR ℚ where
  frequency := [20, 40]
  raw := [1, 2]
  error_smoothed := [3, 4]

/-- A two-point buffer with every channel present (one value needing
two-decimal rounding). -/
def frCsvAll : FR ℚ where
  frequency := [20, 40]
  raw := [1/3, 2]
  error := [3, -4]
  smoothed := [5, 6]
  error_smoothed := [7, 8]
  equalization := [9, 10]
  parametric_eq := [11, 12]
  equalized_raw := [13, 14]
  equalized_smoothed := [15, 16]
  target := [17, 18]

/-- A buffer with a flat (all-zero) but nonempty equalization channel. -/
def frFlat : FR ℚ where
  frequency := [10, 20, 30, 40]
  raw := [0, 0, 0, 0]
  equalization := [0, 0, 0, 0]

/-- A buffer over `ℚ` with raw, smoothed and target data, for the
reset-on-mutation claims. -/
def frReset : FR ℚ where
  frequency := [100]
  raw := [5]
  smoothed := [2]
  error := [3]
  error_smoothed := [4]
  equalization := [6]
  parametric_eq := [7]
  equalized_raw := [8]
  equalized_smoothed := [9]
  target := [1]

/-- A one-point buffer over `ℝ` with both error channels nonempty. -/
def frErrS : FR ℝ where
  frequency := [1000]
  raw := [0]
  error := [2]
  error_smoothed := [1]

/-- The buffer `equalize` produces from `frOne` with `smoothen=False`:
the single error value 0 inverts to gain 0, unclipped. -/
def rW : FR ℝ where
  frequency := [1000]
  raw := [0]
  error := [0]
  equalization := [0]
  equalized_raw := [0]

/-- Invariant of the optimization-loop bookkeeping: the tracked `min_loss`
exceeds no saved loss by more than the threshold, later saves never exceed
earlier saves by the threshold or more, and before the first step nothing is
saved. -/
def OptInv (s : OptState) : Prop :=
  (∀ m, s.min_loss = some m → ∀ l ∈ s.savedLosses, m ≤ l + 1/100)
  ∧ s.savedLosses.Pairwise (fun a b => b < a + 1/100)
  ∧ (s.min_loss = none → s.savedLosses = [])

theorem insertSorted_head_or (x : ℤ) (l : List ℤ) :
    (insertSorted x l).head? = some x ∨ (insertSorted x l).head? = l.head? := by
  cases l with
  | nil => left; rfl
  | cons y t =>
    simp only [insertSorted]
    split_ifs with h1 h2
    · left; rfl
    · right; rfl
    · right; rfl

theorem insertSorted_chain (x : ℤ) (l : List ℤ) (h : l.Chain' (fun a b => a < b)) :
    (insertSorted x l).Chain' (fun a b => a < b) := by
  induction l with
  | nil => simp [insertSorted]
  | cons y t ih =>
    simp only [insertSorted]
    split_ifs with h1 h2
    · refine List.chain'_cons'.mpr ⟨?_, h⟩
      intro z hz
      simp only [List.head?_cons, Option.mem_def, Option.some.injEq] at hz
      omega
    · exact h
    · have ht : t.Chain' (fun a b => a < b) := (List.chain'_cons'.mp h).2
      have hy : ∀ z ∈ t.head?, y < z := (List.chain'_cons'.mp h).1
      refine List.chain'_cons'.mpr ⟨?_, ih ht⟩
      intro z hz
      rcases insertSorted_head_or x t with h3 | h3
      · rw [h3] at hz
        simp only [Option.mem_def, Option.some.injEq] at hz
        omega
      · rw [h3] at hz
        exact hy z hz

theorem foldl_insertSorted_chain (l : List ℤ) :
    ∀ acc : List ℤ, acc.Chain' (fun a b => a < b) →
      (l.foldl (fun acc x => insertSorted x acc) acc).Chain' (fun a b => a < b) := by
  induction l with
  | nil => intro acc h; exact h
  | cons x t ih =>
    intro acc h
    exact ih (insertSorted x acc) (insertSorted_chain x acc h)

theorem sortedSet_chain (l : List ℤ) :
    (sortedSet l).Chain' (fun a b => a < b) :=
  foldl_insertSorted_chain l [] List.chain'_nil

theorem generate_frequencies_eval :
    (generate_frequencies 20 20000 (101/100)).length = 613
    ∧ (generate_frequencies 20 20000 (101/100)).head? = some 20
    ∧ (generate_frequencies 20 20000 (101/100)).getLast? = some 20000 := by
  decide

/-- C7 (counterexample): the claim says `generate_frequencies(20, 20000,
1.01)` has between 700 and 720 elements; in fact it has 613 (the descending
loop appends 695 values and rounding to integers collapses many low-frequency
neighbours), so the claimed length bound is false. -/
theorem C7_length_counterexample :
    (generate_frequencies 20 20000 (101/100)).length = 613
    ∧ ¬(700 ≤ (generate_frequencies 20 20000 (101/100)).length
        ∧ (generate_frequencies 20 20000 (101/100)).length ≤ 720) := by
  refine ⟨generate_frequencies_eval.1, ?_⟩
  rw [generate_frequencies_eval.1]
  omega

/-- C7 (amended): `generate_frequencies(20, 20000, 1.01)` returns a strictly
increasing sequence of integers whose first element is 20 and whose last
element is 20000; its length is 613 (not between 700 and 720 as originally
claimed). -/
theorem C7_grid_generation :
    (generate_frequencies 20 20000 (101/100)).Chain' (fun a b => a < b)
    ∧ (generate_frequencies 20 20000 (101/100)).head? = some 20
    ∧ (generate_frequencies 20 20000 (101/100)).getLast? = some 20000
    ∧ (generate_frequencies 20 20000 (101/100)).length = 613 :=
  ⟨sortedSet_chain _, generate_frequencies_eval.2.1,
   generate_frequencies_eval.2.2, generate_frequencies_eval.1⟩

theorem optStep_inv (target_loss : ℚ) (momentum : ℕ) (s : OptState) (l : ℚ)
    (h : OptInv s) : OptInv (optStep target_loss (1/100) momentum s l).1 := by
  obtain ⟨h1, h2, h3⟩ := h
  rcases s with ⟨m, bad, hist⟩
  cases m with
  | none =>
    have hh : hist = [] := h3 rfl
    subst hh
    simp only [optStep, improves, improvesBy, if_pos]
    refine ⟨?_, ?_, ?_⟩
    · intro m hm l' hl'
      simp only [Option.some.injEq] at hm
      simp only [List.nil_append, List.mem_singleton] at hl'
      subst hm; subst hl'
      linarith
    · simp
    · simp
  | some m0 =>
    simp only [optStep, improves, improvesBy]
    by_cases h2' : (1:ℚ)/100 < m0 - l
    · have h1' : l < m0 := by linarith
      simp only [decide_eq_true_eq, if_pos h1', if_pos h2']
      refine ⟨?_, ?_, ?_⟩
      · intro m hm l' hl'
        simp only [Option.some.injEq] at hm
        subst hm
        rcases List.mem_append.mp hl' with hl' | hl'
        · have := h1 m0 rfl l' hl'
          linarith
        · simp only [List.mem_singleton] at hl'
          subst hl'
          linarith
      · rw [List.pairwise_append]
        refine ⟨h2, by simp, ?_⟩
        intro a ha b hb
        simp only [List.mem_singleton] at hb
        subst hb
        have := h1 m0 rfl a ha
        linarith
      · simp
    · simp only [decide_eq_true_eq, if_neg h2']
      by_cases h1' : l < m0
      · simp only [if_pos h1']
        refine ⟨?_, ?_, ?_⟩
        · intro m hm l' hl'
          simp only [Option.some.injEq] at hm
          subst hm
          rcases List.mem_append.mp hl' with hl' | hl'
          · exact h1 m0 rfl l' hl'
          · simp only [List.mem_singleton] at hl'
            subst hl'
            linarith
        · rw [List.pairwise_append]
          refine ⟨h2, by simp, ?_⟩
          intro a ha b hb
          simp only [List.mem_singleton] at hb
          subst hb
          have := h1 m0 rfl a ha
          linarith
        · intro hc
          simp at hc
      · simp only [if_neg h1']
        exact ⟨h1, h2, h3⟩

theorem optLoop_inv (target_loss : ℚ) (momentum : ℕ) (losses : List ℚ) :
    ∀ s : OptState, OptInv s →
      OptInv (optLoop target_loss (1/100) momentum s losses) := by
  induction losses with
  | nil => intro s h; exact h
  | cons l ls ih =>
    intro s h
    simp only [optLoop]
    split
    · exact optStep_inv target_loss momentum s l h
    · exact ih _ (optStep_inv target_loss momentum s l h)

/-- C3 (counterexample): with step losses 1, 0.995, 0.997 the loop saves the
model at every step — the third step's loss 0.997 is below the tracked
`min_loss` of 1, which was never lowered because neither improvement exceeded
the threshold 0.01 — so the parameters saved third correspond to a loss worse
than the parameters saved second, refuting both that saves happen only when
the loss improves on the best seen so far and that saved losses are
monotone. -/
theorem C3_counterexample :
    savedLossHistory (1/10) [1, 199/200, 997/1000] = [1, 199/200, 997/1000]
    ∧ ¬ ((997/1000 : ℚ) ≤ 199/200) := by
  constructor
  · decide
  · decide

/-- C3 (amended): a save happens exactly when the step loss is below the
tracked `min_loss` (which is only lowered on improvements larger than the
threshold 0.01) — in particular whenever the loss improves on the best seen —
and consequently a later saved loss may exceed an earlier one, but always by
less than 0.01. -/
theorem C3_optimizer_saves (target_loss : ℚ) (losses : List ℚ) :
    (savedLossHistory target_loss losses).Pairwise (fun a b => b < a + 1/100)
    ∧ ∀ (s : OptState) (l : ℚ), improves s.min_loss l = true →
        (optStep target_loss (1/100) 300 s l).1.savedLosses = s.savedLosses ++ [l] := by
  constructor
  · exact (optLoop_inv target_loss 300 losses {} ⟨by simp, by simp, by simp⟩).2.1
  · intro s l h
    simp only [optStep, h, if_true]
    split
    · rfl
    · rfl

/-- C3 (witness): the amended theorem applied at a concrete state and loss
sequence. -/
theorem C3_optimizer_saves_witness :
    (optStep (1/10) (1/100) 300 {} 1).1.savedLosses = [] ++ [1]
    ∧ (savedLossHistory (1/10) [1, 1/2]).Pairwise (fun a b => b < a + 1/100) :=
  ⟨(C3_optimizer_saves (1/10) []).2 {} 1 (by decide),
   (C3_optimizer_saves (1/10) [1, 1/2]).1⟩

/-- C5 (counterexample): `center` does not reset every other channel — it
keeps `target` untouched and keeps (a shifted) `smoothed`, so a buffer with a
nonempty target still has it after `center`. -/
theorem C5_center_counterexample :
    (center (fun _ _ _ => (0:ℚ)) frReset).target = [1]
    ∧ (center (fun _ _ _ => (0:ℚ)) frReset).smoothed = [2]
    ∧ ¬ (center (fun _ _ _ => (0:ℚ)) frReset).target = [] := by
  refine ⟨by decide, by decide, by decide⟩

/-- C5 (amended): `interpolate` and `calibrate` reset every channel other
than raw; `center` resets error, error_smoothed, equalization, parametric_eq,
equalized_raw and equalized_smoothed, but preserves `target` and keeps
`smoothed` (shifted by the same 1 kHz offset as raw). -/
theorem C5_reset_on_mutation {α : Type} [LinearOrderedField α]
    (spline : List α → List α → α → α) (newFreq : List α) (fr cal : FR α) :
    ((interpolate spline newFreq fr).smoothed = []
      ∧ (interpolate spline newFreq fr).error = []
      ∧ (interpolate spline newFreq fr).error_smoothed = []
      ∧ (interpolate spline newFreq fr).equalization = []
      ∧ (interpolate spline newFreq fr).parametric_eq = []
      ∧ (interpolate spline newFreq fr).equalized_raw = []
      ∧ (interpolate spline newFreq fr).equalized_smoothed = []
      ∧ (interpolate spline newFreq fr).target = [])
    ∧ ((calibrate fr cal).smoothed = []
      ∧ (calibrate fr cal).error = []
      ∧ (calibrate fr cal).error_smoothed = []
      ∧ (calibrate fr cal).equalization = []
      ∧ (calibrate fr cal).parametric_eq = []
      ∧ (calibrate fr cal).equalized_raw = []
      ∧ (calibrate fr cal).equalized_smoothed = []
      ∧ (calibrate fr cal).target = [])
    ∧ ((center spline fr).error = []
      ∧ (center spline fr).error_smoothed = []
      ∧ (center spline fr).equalization = []
      ∧ (center spline fr).parametric_eq = []
      ∧ (center spline fr).equalized_raw = []
      ∧ (center spline fr).equalized_smoothed = []
      ∧ (center spline fr).target = fr.target
      ∧ (center spline fr).smoothed
          = fr.smoothed.map (fun x => x - spline fr.frequency fr.raw 1000)) := by
  refine ⟨⟨rfl, rfl, rfl, rfl, rfl, rfl, rfl, rfl⟩,
    ⟨rfl, rfl, rfl, rfl, rfl, rfl, rfl, rfl⟩,
    ⟨rfl, rfl, rfl, rfl, rfl, rfl, rfl, rfl⟩⟩

theorem mem_insNat (x y : ℕ) (l : List ℕ) : y ∈ insNat x l ↔ y = x ∨ y ∈ l := by
  induction l with
  | nil => simp [insNat]
  | cons z t ih =>
    simp only [insNat]
    split_ifs
    · simp [List.mem_cons]
    · simp only [List.mem_cons, ih]
      tauto

theorem mem_sortNat (y : ℕ) (l : List ℕ) : y ∈ sortNat l ↔ y ∈ l := by
  induction l with
  | nil => simp [sortNat]
  | cons x t ih =>
    simp only [sortNat, List.foldr_cons] at ih ⊢
    rw [mem_insNat, ih, List.mem_cons]

theorem peakCandidates_eq_nil (s : List ℚ)
    (h : ∀ i ∈ findPeaks (clipPos s) ++ findPeaks (clipPos (s.map (fun x => -x))),
      |s.getD i 0| ≤ 1/10) :
    peakCandidates s = [] := by
  unfold peakCandidates
  rw [List.filter_eq_nil_iff]
  intro a ha
  have h2 := h a ((mem_sortNat a _).mp ha)
  simpa using h2

theorem equalize_error_iff (sp : List ℝ → List ℝ → ℝ → ℝ) (mg : ℝ) (sm : Bool)
    (tfl tfu tmg tgk : ℝ) (fr : FR ℝ) :
    equalize sp mg sm tfl tfu tmg tgk fr = .error .missingErrorData
    ↔ (fr.error_smoothed = [] ∧ fr.error = []) := by
  by_cases h1 : fr.error_smoothed = []
  · by_cases h2 : fr.error = []
    · simp [equalize, h1, h2]
    · simp [equalize, h1, h2]
  · simp [equalize, h1]

theorem equalize_prefers_error_smoothed (sp : List ℝ → List ℝ → ℝ → ℝ) (mg : ℝ)
    (sm : Bool) (tfl tfu tmg tgk : ℝ) (fr : FR ℝ) (e' : List ℝ)
    (h : fr.error_smoothed ≠ []) :
    (equalize sp mg sm tfl tfu tmg tgk fr).map (fun r => r.equalization)
    = (equalize sp mg sm tfl tfu tmg tgk { fr with error := e' }).map
        (fun r => r.equalization) := by
  simp [equalize, h, Except.map]

theorem run_init_ne_missing (sN : List ℚ → List ℚ → List ℚ)
    (iN : List ℚ → List ℚ → ℚ → ℚ) (f t : List ℚ) :
    _run_optimize_parametric_eq_init sN iN f t ≠ .error .missingEqualization := by
  simp only [_run_optimize_parametric_eq_init]
  cases hm : (peakCandidates (sN f t)).map (fun i => f.getD i 0) with
  | nil => simp
  | cons f0 rest => simp

theorem optimize_missing_iff (sN : List ℚ → List ℚ → List ℚ)
    (iN : List ℚ → List ℚ → ℚ → ℚ) (fr : FR ℚ) :
    optimize_parametric_eq sN iN fr = .error .missingEqualization
    ↔ fr.equalization = [] := by
  by_cases h : fr.equalization = []
  · simp [optimize_parametric_eq, h]
  · simp only [optimize_parametric_eq, if_neg h]
    constructor
    · intro hc
      exact absurd hc (run_init_ne_missing sN iN fr.frequency fr.equalization)
    · intro hc
      exact absurd hc h

/-- C8 (counterexample): `optimize_parametric_eq` can raise even when the
equalization channel is nonempty — on a flat all-zero equalization (for which
the smoothing, here instantiated with the identity, which is what
Savitzky–Golay returns on constant data, yields no peak candidates) it fails
with an `IndexError` at `peak_fc[0]` — so "raises an error iff equalization is
empty" is false. -/
theorem C8_flat_raises_counterexample :
    frFlat.equalization ≠ []
    ∧ optimize_parametric_eq (fun _ t => t) (fun _ _ _ => 0) frFlat
        = .error .indexError := by
  constructor
  · decide
  · rfl

/-- C8 (amended): `equalize` raises its missing-error `ValueError` exactly
when both `error_smoothed` and `error` are empty, and when `error_smoothed`
is present the equalization result does not depend on the `error` channel
(it is computed from `error_smoothed`); `optimize_parametric_eq` raises its
missing-equalization `ValueError` exactly when the equalization channel is
empty (though with a nonempty channel it may still fail later with an
`IndexError`). -/
theorem C8_missing_prerequisites :
    (∀ (sp : List ℝ → List ℝ → ℝ → ℝ) (mg : ℝ) (sm : Bool) (tfl tfu tmg tgk : ℝ)
       (fr : FR ℝ),
      (equalize sp mg sm tfl tfu tmg tgk fr = .error .missingErrorData
        ↔ (fr.error_smoothed = [] ∧ fr.error = []))
      ∧ (∀ e' : List ℝ, fr.error_smoothed ≠ [] →
          (equalize sp mg sm tfl tfu tmg tgk fr).map (fun r => r.equalization)
          = (equalize sp mg sm tfl tfu tmg tgk { fr with error := e' }).map
              (fun r => r.equalization)))
    ∧ (∀ (sN : List ℚ → List ℚ → List ℚ) (iN : List ℚ → List ℚ → ℚ → ℚ)
         (fr : FR ℚ),
        optimize_parametric_eq sN iN fr = .error .missingEqualization
        ↔ fr.equalization = []) :=
  ⟨fun sp mg sm tfl tfu tmg tgk fr =>
    ⟨equalize_error_iff sp mg sm tfl tfu tmg tgk fr,
     fun e' h => equalize_prefers_error_smoothed sp mg sm tfl tfu tmg tgk fr e' h⟩,
   fun sN iN fr => optimize_missing_iff sN iN fr⟩

/-- C8 (witness): the amended statement at concrete buffers, with the
`error_smoothed ≠ []` hypothesis discharged at `frErrS`. -/
theorem C8_missing_prerequisites_witness :
    (optimize_parametric_eq (fun _ t => t) (fun _ _ _ => 0) frFlat
        = .error .missingEqualization ↔ frFlat.equalization = [])
    ∧ (equalize (fun _ _ _ => (0:ℝ)) 6 false 6000 8000 0 1 frErrS).map
        (fun r => r.equalization)
      = (equalize (fun _ _ _ => (0:ℝ)) 6 false 6000 8000 0 1
          { frErrS with error := [5] }).map (fun r => r.equalization) :=
  ⟨C8_missing_prerequisites.2 (fun _ t => t) (fun _ _ _ => 0) frFlat,
   (C8_missing_prerequisites.1 (fun _ _ _ => (0:ℝ)) 6 false 6000 8000 0 1
      frErrS).2 [5] (by simp [frErrS])⟩

/-- C10: when the heavily smoothed equalization target has no local extremum
of absolute value above 0.1 dB, the candidate list is empty and
`_run_optimize_parametric_eq` fails with an out-of-bounds access at
`peak_fc[0]` (an `IndexError`) rather than returning an empty filter list or a
dedicated error. -/
theorem C10_flat_target_index_error (sN : List ℚ → List ℚ → List ℚ)
    (iN : List ℚ → List ℚ → ℚ → ℚ) (fr : FR ℚ)
    (hne : fr.equalization ≠ [])
    (h : ∀ i ∈ findPeaks (clipPos (sN fr.frequency fr.equalization))
        ++ findPeaks (clipPos ((sN fr.frequency fr.equalization).map (fun x => -x))),
      |(sN fr.frequency fr.equalization).getD i 0| ≤ 1/10) :
    optimize_parametric_eq sN iN fr = .error .indexError := by
  have hpc := peakCandidates_eq_nil _ h
  simp [optimize_parametric_eq, hne, _run_optimize_parametric_eq_init, hpc]

/-- C10 (witness): the flat all-zero equalization target with the identity
smoother (Savitzky–Golay is the identity on constant data) indeed produces the
`IndexError`. -/
theorem C10_flat_target_index_error_witness :
    optimize_parametric_eq (fun _ t => t) (fun _ _ _ => (0:ℚ)) frFlat
      = .error .indexError :=
  C10_flat_target_index_error (fun _ t => t) (fun _ _ _ => 0) frFlat
    (by decide) (by decide)

theorem expit_add_expit_neg (x : ℝ) : expit x + expit (-x) = 1 := by
  unfold expit
  rw [neg_neg]
  have h1 : (0:ℝ) < 1 + Real.exp (-x) := by positivity
  have h2 : (0:ℝ) < 1 + Real.exp x := by positivity
  have h3 : Real.exp (-x) * Real.exp x = 1 := by
    rw [← Real.exp_add]
    simp
  field_simp
  nlinarith [h3]

theorem expit_nonneg (x : ℝ) : 0 ≤ expit x := by
  unfold expit
  positivity

theorem log10_sigmoid_f_center (fl fu : ℝ) (h0 : 0 < fl) (hfu : 0 < fu) :
    log10 (sigmoid_f_center fl fu) = (log10 fl + log10 fu) / 2 := by
  unfold log10 sigmoid_f_center
  have hdiv : 0 < fu / fl := div_pos hfu h0
  have hsq : 0 < Real.sqrt (fu / fl) := Real.sqrt_pos.mpr hdiv
  rw [Real.log_mul hsq.ne' h0.ne', Real.log_sqrt hdiv.le, Real.log_div hfu.ne' h0.ne']
  ring

theorem sigmoid_half_range_eq (fl fu : ℝ) (h0 : 0 < fl) (hfu : 0 < fu) :
    sigmoid_half_range fl fu = (log10 fu - log10 fl) / 2 := by
  unfold sigmoid_half_range
  rw [log10_sigmoid_f_center fl fu h0 hfu]
  ring

theorem sigmoid_half_range_self (fl : ℝ) (h0 : 0 < fl) :
    sigmoid_half_range fl fl = 0 := by
  rw [sigmoid_half_range_eq fl fl h0 h0]
  ring

theorem sigmoid_half_range_pos (fl fu : ℝ) (h0 : 0 < fl) (hlt : fl < fu) :
    0 < sigmoid_half_range fl fu := by
  rw [sigmoid_half_range_eq fl fu h0 (h0.trans hlt)]
  unfold log10
  have hL : 0 < Real.log 10 := Real.log_pos (by norm_num)
  have hlog : Real.log fl < Real.log fu := Real.log_lt_log h0 hlt
  have : 0 < Real.log fu / Real.log 10 - Real.log fl / Real.log 10 := by
    rw [div_sub_div_same]
    exact div_pos (by linarith) hL
  linarith

theorem sigmoid_arg_at_lower (fl fu : ℝ) (h0 : 0 < fl) (hlt : fl < fu) :
    (log10 fl - log10 (sigmoid_f_center fl fu)) /
      (sigmoid_half_range fl fu / 4) = -4 := by
  have hfu : 0 < fu := h0.trans hlt
  have hhr : sigmoid_half_range fl fu ≠ 0 := (sigmoid_half_range_pos fl fu h0 hlt).ne'
  have hnum : log10 fl - log10 (sigmoid_f_center fl fu) = -(sigmoid_half_range fl fu) := by
    rw [log10_sigmoid_f_center fl fu h0 hfu, sigmoid_half_range_eq fl fu h0 hfu]
    ring
  rw [hnum]
  field_simp
  ring

theorem sigmoid_arg_at_upper (fl fu : ℝ) (h0 : 0 < fl) (hlt : fl < fu) :
    (log10 fu - log10 (sigmoid_f_center fl fu)) /
      (sigmoid_half_range fl fu / 4) = 4 := by
  have hfu : 0 < fu := h0.trans hlt
  have hhr : sigmoid_half_range fl fu ≠ 0 := (sigmoid_half_range_pos fl fu h0 hlt).ne'
  have hnum : log10 fu - log10 (sigmoid_f_center fl fu) = sigmoid_half_range fl fu := by
    unfold sigmoid_half_range
    ring
  rw [hnum]
  field_simp

theorem expit_neg_four_lt : expit (-4) < 1/50 := by
  unfold expit
  rw [neg_neg]
  have h1 : Real.exp 1 > 2.7 := by linarith [Real.exp_one_gt_d9]
  have h4 : Real.exp 4 > 49 := by
    have e2 : Real.exp 2 = Real.exp 1 * Real.exp 1 := by
      rw [← Real.exp_add]; norm_num
    have e4 : Real.exp 4 = Real.exp 2 * Real.exp 2 := by
      rw [← Real.exp_add]; norm_num
    have h2 : Real.exp 2 > 7.29 := by
      rw [e2]; nlinarith [Real.exp_pos 1]
    rw [e4]; nlinarith [Real.exp_pos 2]
  rw [div_lt_div_iff (by positivity) (by norm_num)]
  linarith

/-- C6: for `f_lower < f_upper` the sigmoid crossover is centered at the
geometric mean (its `log10` is the average of the endpoint logs), computes
`out(f) = a_lo + logistic((log10 f - log10 f_c)/(h/4)) * (a_hi - a_lo)`, and
at the band edges deviates from the endpoint values by exactly
`logistic(-4) * (a_hi - a_lo)` — in particular by at most
`logistic(-4) * |a_hi - a_lo|`, with `logistic(-4) < 1/50`. -/
theorem C6_sigmoid_crossover (fl fu a_lo a_hi : ℝ) (h0 : 0 < fl) (hlt : fl < fu) :
    log10 (sigmoid_f_center fl fu) = (log10 fl + log10 fu) / 2
    ∧ (∀ f, _sigmoid fl fu a_lo a_hi f
        = a_lo + expit ((log10 f - log10 (sigmoid_f_center fl fu)) /
            (sigmoid_half_range fl fu / 4)) * (a_hi - a_lo))
    ∧ _sigmoid fl fu a_lo a_hi fl = a_lo + expit (-4) * (a_hi - a_lo)
    ∧ _sigmoid fl fu a_lo a_hi fu = a_hi - expit (-4) * (a_hi - a_lo)
    ∧ |_sigmoid fl fu a_lo a_hi fl - a_lo| ≤ expit (-4) * |a_hi - a_lo|
    ∧ |_sigmoid fl fu a_lo a_hi fu - a_hi| ≤ expit (-4) * |a_hi - a_lo|
    ∧ expit (-4) < 1/50 := by
  have hfu : 0 < fu := h0.trans hlt
  have hform : ∀ f, _sigmoid fl fu a_lo a_hi f
      = a_lo + expit ((log10 f - log10 (sigmoid_f_center fl fu)) /
          (sigmoid_half_range fl fu / 4)) * (a_hi - a_lo) := by
    intro f
    unfold _sigmoid
    ring
  have hlo : _sigmoid fl fu a_lo a_hi fl = a_lo + expit (-4) * (a_hi - a_lo) := by
    rw [hform fl, sigmoid_arg_at_lower fl fu h0 hlt]
  have hhi : _sigmoid fl fu a_lo a_hi fu = a_hi - expit (-4) * (a_hi - a_lo) := by
    rw [hform fu, sigmoid_arg_at_upper fl fu h0 hlt]
    have h4 : expit 4 = 1 - expit (-4) := by
      have := expit_add_expit_neg 4
      linarith
    rw [h4]
    ring
  refine ⟨log10_sigmoid_f_center fl fu h0 hfu, hform, hlo, hhi, ?_, ?_,
    expit_neg_four_lt⟩
  · rw [hlo]
    have : a_lo + expit (-4) * (a_hi - a_lo) - a_lo = expit (-4) * (a_hi - a_lo) := by
      ring
    rw [this, abs_mul, abs_of_nonneg (expit_nonneg (-4))]
  · rw [hhi]
    have : a_hi - expit (-4) * (a_hi - a_lo) - a_hi = -(expit (-4) * (a_hi - a_lo)) := by
      ring
    rw [this, abs_neg, abs_mul, abs_of_nonneg (expit_nonneg (-4))]

/-- C6 (witness): the sigmoid crossover at the bass-boost band `[60, 200]`
with endpoint values 6 and 0. -/
theorem C6_sigmoid_crossover_witness :
    _sigmoid 60 200 6 0 60 = 6 + expit (-4) * (0 - 6)
    ∧ _sigmoid 60 200 6 0 200 = 0 - expit (-4) * (0 - 6)
    ∧ expit (-4) < 1/50 :=
  ⟨(C6_sigmoid_crossover 60 200 6 0 (by norm_num) (by norm_num)).2.2.1,
   (C6_sigmoid_crossover 60 200 6 0 (by norm_num) (by norm_num)).2.2.2.1,
   (C6_sigmoid_crossover 60 200 6 0 (by norm_num) (by norm_num)).2.2.2.2.2.2⟩

/-- C9: only `smoothen` validates the transition band — it raises for
`treble_f_upper ≤ treble_f_lower` — while `equalize` performs no such check:
with equal bounds the sigmoid half-range is exactly 0 (so `_sigmoid` divides
by zero; in the real-valued model that division is total) and `equalize`
still returns a result instead of raising. -/
theorem C9_transition_band_validation (savgol : ℤ → List ℝ → List ℝ)
    (ws : ℝ) (it : ℕ) (tws : Option ℝ) (tit : Option ℕ)
    (sp : List ℝ → List ℝ → ℝ → ℝ) (mg tmg tgk : ℝ) (sm : Bool)
    (tfl tfu : ℝ) (fr : FR ℝ)
    (hba : tfu ≤ tfl) (h0 : 0 < tfl) (herr : fr.error ≠ []) :
    smoothen savgol ws it tws tit tfl tfu fr = .error .invalidBounds
    ∧ sigmoid_half_range tfl tfl = 0
    ∧ ∃ r, equalize sp mg sm tfl tfl tmg tgk fr = .ok r := by
  refine ⟨?_, sigmoid_half_range_self tfl h0, ?_⟩
  · simp [smoothen, hba]
  · by_cases h1 : fr.error_smoothed = []
    · simp only [equalize, h1, ne_eq, not_true_eq_false, if_false, herr,
        not_false_eq_true, if_true]
      exact ⟨_, rfl⟩
    · simp only [equalize, h1, ne_eq, not_false_eq_true, if_true]
      exact ⟨_, rfl⟩

/-- C9 (witness): at the concrete degenerate band `[6000, 6000]` on a buffer
with error data. -/
theorem C9_transition_band_validation_witness :
    smoothen (fun _ l => l) (1/7) 10 none none 6000 6000 frErrS
      = .error .invalidBounds
    ∧ sigmoid_half_range 6000 6000 = 0
    ∧ ∃ r, equalize (fun _ _ _ => (0:ℝ)) 6 false 6000 6000 0 1 frErrS = .ok r :=
  C9_transition_band_validation (fun _ l => l) (1/7) 10 none none
    (fun _ _ _ => (0:ℝ)) 6 0 1 false 6000 6000 frErrS (le_refl _) (by norm_num)
    (by simp [frErrS])

/-- C4 (code bug): the interpolation line that `merge_filters` scores each
candidate pair with is constant at the first peak's gain — line 283 reads
`g_1 = peak_g[pair_ind]` instead of `peak_g[pair_ind + 1]` — so for the pair
`fc = [20, 40]`, `g = [1, 2]` the code's line still evaluates to 1 at the
second peak while the interpolation between the two gains that the claim
describes evaluates to 2 there. -/
theorem C4_merge_rms_line_typo :
    (∀ (peak_fc peak_g : List ℝ) (j : ℕ) (x : ℝ),
      merge_pair_line peak_fc peak_g j x = peak_g.getD j 0)
    ∧ merge_pair_line [20, 40] [1, 2] 0 (log10 40) = 1
    ∧ merge_pair_line_spec [20, 40] [1, 2] 0 (log10 40) = 2 := by
  have hconst : ∀ (peak_fc peak_g : List ℝ) (j : ℕ) (x : ℝ),
      merge_pair_line peak_fc peak_g j x = peak_g.getD j 0 := by
    intro peak_fc peak_g j x
    unfold merge_pair_line
    ring
  refine ⟨hconst, ?_, ?_⟩
  · rw [hconst]
    rfl
  · unfold merge_pair_line_spec
    have hd : log10 40 - log10 20 ≠ 0 := by
      unfold log10
      have hL : 0 < Real.log 10 := Real.log_pos (by norm_num)
      have hlog : Real.log 20 < Real.log 40 := Real.log_lt_log (by norm_num) (by norm_num)
      have : 0 < Real.log 40 / Real.log 10 - Real.log 20 / Real.log 10 := by
        rw [div_sub_div_same]
        exact div_pos (by linarith) hL
      linarith
    have h20 : ([20, 40] : List ℝ).getD 0 0 = 20 := rfl
    have h40 : ([20, 40] : List ℝ).getD 1 0 = 40 := rfl
    have h1 : ([1, 2] : List ℝ).getD 0 0 = 1 := rfl
    have h2 : ([1, 2] : List ℝ).getD 1 0 = 2 := rfl
    rw [h20, h40, h1, h2]
    field_simp

theorem chain_getD_lt (freq : List ℚ) (h : freq.Chain' (fun a b => a < b))
    (i : ℕ) (hi : i + 1 < freq.length) : freq.getD i 0 < freq.getD (i + 1) 0 := by
  have h2 := List.chain'_iff_get.mp h i (by omega)
  rw [List.getD_eq_getElem freq 0 (by omega), List.getD_eq_getElem freq 0 hi]
  simpa using h2

theorem insIdx_range' (freq : List ℚ) (h : freq.Chain' (fun a b => a < b))
    (s k : ℕ) (hsk : s + k < freq.length) :
    insIdx freq s (List.range' (s + 1) k) = List.range' s (k + 1) := by
  cases k with
  | zero => rfl
  | succ k =>
    rw [List.range'_succ]
    simp only [insIdx]
    rw [if_pos (chain_getD_lt freq h s (by omega))]
    rw [List.range'_succ, List.range'_succ]

theorem foldr_insIdx_range' (freq : List ℚ) (h : freq.Chain' (fun a b => a < b)) :
    ∀ (k s : ℕ), s + k = freq.length →
      (List.range' s k).foldr (insIdx freq) [] = List.range' s k := by
  intro k
  induction k with
  | zero => intro s _; rfl
  | succ k ih =>
    intro s hs
    rw [List.range'_succ, List.foldr_cons, ih (s + 1) (by omega)]
    exact insIdx_range' freq h s k (by omega)

theorem argsortQ_sorted (freq : List ℚ) (h : freq.Chain' (fun a b => a < b)) :
    argsortQ freq = List.range freq.length := by
  unfold argsortQ
  rw [List.range_eq_range']
  exact foldr_insIdx_range' freq h freq.length 0 (by omega)

theorem applyInds_range (l : List ℚ) : applyInds (List.range l.length) l = l := by
  apply List.ext_getElem
  · simp [applyInds]
  · intro i h1 h2
    simp [applyInds, List.getElem?_eq_getElem h2]

theorem sort_channel_id (n : ℕ) (l : List ℚ) (hl : l = [] ∨ l.length = n) :
    (if l = [] then l else applyInds (List.range n) l) = l := by
  rcases hl with hl | hl
  · simp [hl]
  · by_cases he : l = []
    · simp [he]
    · rw [if_neg he, ← hl]
      exact applyInds_range l

theorem sortChannels_sorted_id (fr : FR ℚ)
    (hs : fr.frequency.Chain' (fun a b => a < b))
    (h1 : fr.raw = [] ∨ fr.raw.length = fr.frequency.length)
    (h2 : fr.error = [] ∨ fr.error.length = fr.frequency.length)
    (h3 : fr.smoothed = [] ∨ fr.smoothed.length = fr.frequency.length)
    (h4 : fr.error_smoothed = [] ∨ fr.error_smoothed.length = fr.frequency.length)
    (h5 : fr.equalization = [] ∨ fr.equalization.length = fr.frequency.length)
    (h6 : fr.parametric_eq = [] ∨ fr.parametric_eq.length = fr.frequency.length)
    (h7 : fr.equalized_raw = [] ∨ fr.equalized_raw.length = fr.frequency.length)
    (h8 : fr.equalized_smoothed = [] ∨
      fr.equalized_smoothed.length = fr.frequency.length)
    (h9 : fr.target = [] ∨ fr.target.length = fr.frequency.length) :
    sortChannels fr = fr := by
  have heta : fr = ⟨fr.frequency, fr.raw, fr.error, fr.smoothed, fr.error_smoothed,
      fr.equalization, fr.parametric_eq, fr.equalized_raw, fr.equalized_smoothed,
      fr.target⟩ := rfl
  rw [heta]
  unfold sortChannels
  simp only [argsortQ_sorted fr.frequency hs, FR.mk.injEq]
  exact ⟨applyInds_range fr.frequency,
    sort_channel_id _ _ h1, sort_channel_id _ _ h2, sort_channel_id _ _ h3,
    sort_channel_id _ _ h4, sort_channel_id _ _ h5, sort_channel_id _ _ h6,
    sort_channel_id _ _ h7, sort_channel_id _ _ h8, sort_channel_id _ _ h9⟩

theorem colOf_getD (l : List ℚ) : (colOf l).getD [] = l.map round2 := by
  by_cases h : l = [] <;> simp [colOf, h]

theorem read_write_pre (fr : FR ℚ) (hne : fr.frequency ≠ []) :
    read_from_csv (write_to_csv fr) = sortChannels
      { frequency := fr.frequency.map round2
        raw := fr.raw.map round2
        error := fr.error.map round2
        smoothed := fr.smoothed.map round2
        error_smoothed := []
        equalization := fr.equalization.map round2
        parametric_eq := fr.parametric_eq.map round2
        equalized_raw := fr.equalized_raw.map round2
        equalized_smoothed := fr.equalized_smoothed.map round2
        target := fr.target.map round2 } := by
  have hfne : fr.frequency.map round2 ≠ [] := by
    simpa using hne
  unfold read_from_csv write_to_csv
  simp only [colOf_getD]
  rw [if_neg hfne]

/-- C2 (counterexample): `read_from_csv` never reads an `error_smoothed`
column, so a buffer whose `error_smoothed` channel is present loses it in the
round trip. -/
theorem C2_error_smoothed_lost :
    frCsv.error_smoothed ≠ []
    ∧ (read_from_csv (write_to_csv frCsv)).error_smoothed = []
    ∧ (read_from_csv (write_to_csv frCsv)).error_smoothed
        ≠ frCsv.error_smoothed.map round2 := by
  refine ⟨by decide, by decide, by decide⟩

/-- C2 (amended): for a buffer whose frequency grid is nonempty, strictly
increasing after two-decimal rounding, and whose present channels are aligned
with the grid, writing to CSV and reading back reproduces every channel at
two-decimal precision — except `error_smoothed`, which the reader never
looks for and which always comes back empty. -/
theorem C2_csv_roundtrip (fr : FR ℚ) (hne : fr.frequency ≠ [])
    (hsorted : (fr.frequency.map round2).Chain' (fun a b => a < b))
    (h1 : fr.raw = [] ∨ fr.raw.length = fr.frequency.length)
    (h2 : fr.error = [] ∨ fr.error.length = fr.frequency.length)
    (h3 : fr.smoothed = [] ∨ fr.smoothed.length = fr.frequency.length)
    (h5 : fr.equalization = [] ∨ fr.equalization.length = fr.frequency.length)
    (h6 : fr.parametric_eq = [] ∨ fr.parametric_eq.length = fr.frequency.length)
    (h7 : fr.equalized_raw = [] ∨ fr.equalized_raw.length = fr.frequency.length)
    (h8 : fr.equalized_smoothed = [] ∨
      fr.equalized_smoothed.length = fr.frequency.length)
    (h9 : fr.target = [] ∨ fr.target.length = fr.frequency.length) :
    (read_from_csv (write_to_csv fr)).frequency = fr.frequency.map round2
    ∧ (read_from_csv (write_to_csv fr)).raw = fr.raw.map round2
    ∧ (read_from_csv (write_to_csv fr)).error = fr.error.map round2
    ∧ (read_from_csv (write_to_csv fr)).smoothed = fr.smoothed.map round2
    ∧ (read_from_csv (write_to_csv fr)).equalization = fr.equalization.map round2
    ∧ (read_from_csv (write_to_csv fr)).parametric_eq = fr.parametric_eq.map round2
    ∧ (read_from_csv (write_to_csv fr)).equalized_raw = fr.equalized_raw.map round2
    ∧ (read_from_csv (write_to_csv fr)).equalized_smoothed
        = fr.equalized_smoothed.map round2
    ∧ (read_from_csv (write_to_csv fr)).target = fr.target.map round2
    ∧ (read_from_csv (write_to_csv fr)).error_smoothed = [] := by
  have halign : ∀ l : List ℚ, (l = [] ∨ l.length = fr.frequency.length) →
      l.map round2 = [] ∨ (l.map round2).length = (fr.frequency.map round2).length := by
    intro l hl
    rcases hl with hl | hl
    · left; simp [hl]
    · right; simp [hl]
  rw [read_write_pre fr hne]
  rw [sortChannels_sorted_id _ hsorted (halign _ h1) (halign _ h2) (halign _ h3)
    (Or.inl rfl) (halign _ h5) (halign _ h6) (halign _ h7) (halign _ h8)
    (halign _ h9)]
  exact ⟨rfl, rfl, rfl, rfl, rfl, rfl, rfl, rfl, rfl, rfl⟩

/-- C2 (witness): the amended round trip at a concrete fully populated
buffer. -/
theorem C2_csv_roundtrip_witness :
    (read_from_csv (write_to_csv frCsvAll)).raw = frCsvAll.raw.map round2
    ∧ (read_from_csv (write_to_csv frCsvAll)).target = frCsvAll.target.map round2
    ∧ (read_from_csv (write_to_csv frCsvAll)).error_smoothed = [] := by
  have hch : (frCsvAll.frequency.map round2).Chain' (fun a b => a < b) := by
    rw [show frCsvAll.frequency.map round2 = [20, 40] from by decide]
    exact List.chain'_pair.mpr (by decide)
  have h := C2_csv_roundtrip frCsvAll (by decide) hch (by decide)
    (by decide) (by decide) (by decide) (by decide) (by decide) (by decide)
    (by decide)
  exact ⟨h.2.1, h.2.2.2.2.2.2.2.2.1, h.2.2.2.2.2.2.2.2.2⟩

theorem sigmoid_const (fl fu a f : ℝ) : _sigmoid fl fu a a f = a := by
  unfold _sigmoid
  ring

theorem clipLoop_length_le (es : List ℝ) : ∀ (ms ks : List ℝ) (i : ℕ) (prev : Bool),
    (clipLoop es ms ks i prev).1.length ≤ ms.length := by
  induction es with
  | nil => intro ms ks i prev; simp [clipLoop]
  | cons e es ih =>
    intro ms ks i prev
    cases ms with
    | nil => simp [clipLoop]
    | cons m ms =>
      cases ks with
      | nil => simp [clipLoop]
      | cons k ks =>
        simp only [clipLoop, List.length_cons]
        exact Nat.succ_le_succ (ih ms ks _ _)

theorem clipLoop_le (es : List ℝ) :
    ∀ (ms ks : List ℝ) (i : ℕ) (prev : Bool) (j : ℕ),
      j < (clipLoop es ms ks i prev).1.length →
      (clipLoop es ms ks i prev).1.getD j 0 ≤ ms.getD j 0 := by
  induction es with
  | nil => intro ms ks i prev j hj; simp [clipLoop] at hj
  | cons e es ih =>
    intro ms ks i prev j hj
    cases ms with
    | nil => simp [clipLoop] at hj
    | cons m ms =>
      cases ks with
      | nil => simp [clipLoop] at hj
      | cons k ks =>
        cases j with
        | zero =>
          simp only [clipLoop, List.getD_cons_zero]
          by_cases hc : m < -e * k
          · rw [decide_eq_true hc, if_pos rfl]
          · rw [decide_eq_false hc]
            simpa using le_of_not_lt hc
        | succ j =>
          simp only [clipLoop, List.getD_cons_succ] at hj ⊢
          exact ih ms ks _ _ j (by simpa using hj)

/-- C1 (amended): without kink smoothing (`smoothen=False`) the equalization
channel produced by `equalize` is pointwise at most the sigmoid-mixed maximum
gain `max_gain(f)`. -/
theorem C1_equalization_clipping (sp : List ℝ → List ℝ → ℝ → ℝ)
    (mg tfl tfu tmg tgk : ℝ) (fr r : FR ℝ)
    (hok : equalize sp mg false tfl tfu tmg tgk fr = .ok r)
    (i : ℕ) (hi : i < r.equalization.length) :
    r.equalization.getD i 0 ≤ _sigmoid tfl tfu mg tmg (fr.frequency.getD i 0) := by
  have key : ∀ err : List ℝ,
      r.equalization = (clipLoop err (fr.frequency.map (_sigmoid tfl tfu mg tmg))
        (fr.frequency.map (_sigmoid tfl tfu 1 tgk)) 0 false).1 →
      r.equalization.getD i 0 ≤ _sigmoid tfl tfu mg tmg (fr.frequency.getD i 0) := by
    intro err heq
    have hlen : i < (fr.frequency.map (_sigmoid tfl tfu mg tmg)).length := by
      have h1 := clipLoop_length_le err (fr.frequency.map (_sigmoid tfl tfu mg tmg))
        (fr.frequency.map (_sigmoid tfl tfu 1 tgk)) 0 false
      rw [heq] at hi
      omega
    have hfl : i < fr.frequency.length := by
      rw [List.length_map] at hlen
      exact hlen
    have hbound := clipLoop_le err (fr.frequency.map (_sigmoid tfl tfu mg tmg))
      (fr.frequency.map (_sigmoid tfl tfu 1 tgk)) 0 false i (heq ▸ hi)
    rw [heq]
    refine le_trans hbound ?_
    rw [List.getD_eq_getElem _ _ hlen, List.getElem_map,
      List.getD_eq_getElem _ _ hfl]
  by_cases h1 : fr.error_smoothed = []
  · by_cases h2 : fr.error = []
    · exfalso
      have hce := (equalize_error_iff sp mg false tfl tfu tmg tgk fr).mpr ⟨h1, h2⟩
      rw [hok] at hce
      exact absurd hce (by simp)
    · simp [equalize, h1, h2] at hok
      subst hok
      exact key fr.error rfl
  · simp [equalize, h1] at hok
    subst hok
    exact key fr.error_smoothed rfl

/-- C1 (counterexample): with kink smoothing enabled the invariant fails.  On
the grid `[1, 10, 100, 1000]` (log10 values 0, 1, 2, 3) with constant
`max_gain = 6` (`treble_max_gain = max_gain`, so the sigmoid mix is constant)
and errors `[-10, 0, -10, 0]`, the clipped gains are `[6, 0, 6, 0]` with kinks
at indices 1, 2, 3; the 1/12-octave window is one sample wide and the
last-two-indices rule leaves only index 1 doomed, so the surviving log-points
are `(0, 6), (2, 6), (3, 0)`.  The unique quadratic through the survivors —
which is what scipy's `InterpolatedUnivariateSpline(k=2)` interpolates through
three points, and here instantiates the `spline2` parameter — takes the value
8 at `log10(10) = 1`, so the resampled equalization at 10 Hz is 8 > 6 =
`max_gain(10)`. -/
theorem C1_kink_smoothing_overshoots :
    (equalize (fun _ _ x => 6 + 4*x - 2*x^2) 6 true 6000 8000 6 1 frClip).map
      (fun r => r.equalization.getD 1 0) = .ok 8
    ∧ _sigmoid 6000 8000 6 6 (frClip.frequency.getD 1 0) = 6
    ∧ ¬ ((8:ℝ) ≤ 6)
    ∧ ((fun x : ℝ => 6 + 4*x - 2*x^2) 0 = 6
       ∧ (fun x : ℝ => 6 + 4*x - 2*x^2) 2 = 6
       ∧ (fun x : ℝ => 6 + 4*x - 2*x^2) 3 = 0)
    ∧ (∀ a b c : ℝ, a + b*0 + c*0^2 = 6 → a + b*2 + c*2^2 = 6 →
        a + b*3 + c*3^2 = 0 → a + b*1 + c*1^2 = 8) := by
  refine ⟨?_, by rw [sigmoid_const], by norm_num, ⟨by norm_num, by norm_num, by norm_num⟩,
    ?_⟩
  · have e1 : decide ((6:ℝ) < 10) = true := by
      rw [decide_eq_true_eq]; norm_num
    have e2 : decide ((6:ℝ) < 0) = false := by
      rw [decide_eq_false_iff_not]; norm_num
    have hclip : clipLoop [(-10:ℝ), 0, -10, 0] [6, 6, 6, 6] [1, 1, 1, 1] 0 false
        = ([6, 0, 6, 0], [0, 1, 2, 3]) := by
      norm_num [clipLoop, e1, e2]
    have hwin : _window_size [(1:ℝ), 10, 100, 1000] (1/12) = 1 := by
      have havg : avgStepSize [(1:ℝ), 10, 100, 1000] = 10 := by
        norm_num [avgStepSize]
      have hlog2 : (0:ℝ) < Real.log 2 := Real.log_pos (by norm_num)
      have hlog10 : (0:ℝ) < Real.log 10 := Real.log_pos (by norm_num)
      have hlt : Real.log 2 < Real.log 10 := Real.log_lt_log (by norm_num) (by norm_num)
      have hx : Real.log ((2:ℝ) ^ ((1:ℝ)/12)) / Real.log 10
          = (1:ℝ)/12 * Real.log 2 / Real.log 10 := by
        rw [Real.log_rpow (by norm_num)]
      have hxpos : (0:ℝ) < (1:ℝ)/12 * Real.log 2 / Real.log 10 := by positivity
      have hxlt : (1:ℝ)/12 * Real.log 2 / Real.log 10 < 1/2 := by
        rw [div_lt_iff hlog10]
        nlinarith
      have hfl : ⌊(1:ℝ)/12 * Real.log 2 / Real.log 10⌋ = 0 := by
        rw [Int.floor_eq_zero_iff]
        constructor
        · linarith
        · linarith
      have hw0 : pyRoundR ((1:ℝ)/12 * Real.log 2 / Real.log 10) = 0 := by
        unfold pyRoundR
        rw [hfl]
        rw [if_pos (show (1:ℝ)/12 * Real.log 2 / Real.log 10 - ((0:ℤ):ℝ) < 1/2 by
          push_cast; linarith)]
      unfold _window_size
      rw [havg, hx, hw0]
      norm_num
    have hlog10ten : log10 10 = 1 := by
      unfold log10
      exact div_self (Real.log_pos (by norm_num)).ne'
    simp only [equalize, frClip, sigmoid_const]
    norm_num [hclip, hwin, hlog10ten, Except.map,
      if_neg (show ¬(([-10, 0, -10, 0] : List ℝ) = []) by simp)]
  · intro a b c hA hB hC
    linarith

/-- C1 (witness): the amended clipping bound applied at `frOne`, whose
`equalize` output with `smoothen=False` is `rW`. -/
theorem C1_equalization_clipping_witness :
    equalize (fun _ _ _ => (0:ℝ)) 6 false 6000 8000 6 1 frOne = .ok rW
    ∧ 0 < rW.equalization.length
    ∧ rW.equalization.getD 0 0 ≤ _sigmoid 6000 8000 6 6 (frOne.frequency.getD 0 0) := by
  have e2 : decide ((6:ℝ) < 0) = false := by
    rw [decide_eq_false_iff_not]; norm_num
  have hok : equalize (fun _ _ _ => (0:ℝ)) 6 false 6000 8000 6 1 frOne = .ok rW := by
    norm_num [equalize, frOne, sigmoid_const, clipLoop, e2, rW,
      if_neg (show ¬(([0] : List ℝ) = []) by simp)]
  exact ⟨hok, by simp [rW],
    C1_equalization_clipping (fun _ _ _ => (0:ℝ)) 6 6000 8000 6 1 frOne rW hok 0
      (by simp [rW])⟩
